import Mathlib

/-!
Verification of `training/networks_puzzlegan.py` (puzzle-GAN network builder).

The file shallowly embeds the parts of the source the claims are about:

* the scalar helpers `lerp` / `lerp_clip` (source lines 18-19), over exact
  rationals instead of float32;
* a spatial-plane model of tensors (`Map`): one batch element and one channel
  of an NCHW tensor is a function from (row, column) to a rational value.
  `upscale2d` (nearest-neighbour replication, lines 75-83) and `downscale2d`
  (box-filter average pooling, lines 102-107) act on such planes;
* the progressive graph builders of `G_puzzle` (lines 332-352) and `D_puzzle`
  (lines 419-440) for both the 'linear' and the 'recursive' structure.  The
  per-stage computations (`block`, `torgb`, `fromrgb`) carry trainable weights
  and are shared between the two structures through identical variable scopes,
  so they are embedded as arbitrary per-stage functions: every theorem below
  quantifies over them, which is exactly the "given identical weights"
  hypothesis of the specification;
* the puzzle first-layer tiling of `first_layer` (lines 224-325) at the level
  of tile shapes and placements derived from the `tf.reshape`/`tf.concat`
  structure;
* `get_weight` (lines 25-33) at the level of shapes and (squared) init scale;
* an exact integer-indexed model of `conv2d` (lines 48-52) and the fused
  scaling layers `upscale2d_conv2d` (lines 89-97) and `conv2d_downscale2d`
  (lines 113-119), with SAME zero padding expressed by extending planes to
  all of ℤ×ℤ with the convention that the actual image occupies
  [0,H)×[0,W) and is zero elsewhere;
* the feature-map count schedule `nf` (lines 186 and 379), whose float
  arithmetic is modelled over the exact reals.
-/

namespace PuzzleGAN

/-! ## Scalar helpers (source lines 18-19) -/

/-- `lerp(a, b, t) = a + (b - a) * t` (line 18). -/
def lerp (a b t : ℚ) : ℚ := a + (b - a) * t

/-- `tf.clip_by_value(t, lo, hi) = min(max(t, lo), hi)`. -/
def clip_by_value (t lo hi : ℚ) : ℚ := min (max t lo) hi

/-- `lerp_clip(a, b, t) = a + (b - a) * clip_by_value(t, 0.0, 1.0)` (line 19). -/
def lerp_clip (a b t : ℚ) : ℚ := a + (b - a) * clip_by_value t 0 1

/-! ## Spatial planes

A `Map` is one spatial plane of an NCHW tensor: the value at (row, column).
The blending, upscaling and downscaling layers of the graph builders act
independently on every batch element and channel, so all the blending
arithmetic of the progressive builders is captured plane-wise.  The blend
weight is a scalar (`lod_in - lod` in the source), hence `lerpMap` and
`lerpClipMap` broadcast the scalar `lerp` / `lerp_clip` over the plane. -/

abbrev Map : Type := ℕ → ℕ → ℚ

/-- Pointwise broadcast of `lerp` over a plane. -/
def lerpMap (a b : Map) (t : ℚ) : Map := fun i j => lerp (a i j) (b i j) t

/-- Pointwise broadcast of `lerp_clip` over a plane. -/
def lerpClipMap (a b : Map) (t : ℚ) : Map := fun i j => lerp_clip (a i j) (b i j) t

/-- `upscale2d(x, factor)` (lines 75-83): nearest-neighbour replication via
reshape/tile/reshape; pixel (i, j) of the result is pixel (i/factor, j/factor)
of the input (the `factor == 1` early return agrees with this formula). -/
def upscale2d (x : Map) (factor : ℕ) : Map := fun i j => x (i / factor) (j / factor)

/-- `downscale2d(x, factor)` (lines 102-107): average pooling with window and
stride `factor` (the `factor == 1` early return agrees with this formula). -/
def downscale2d (x : Map) (factor : ℕ) : Map := fun i j =>
  (∑ a in Finset.range factor, ∑ b in Finset.range factor,
      x (i * factor + a) (j * factor + b)) / ((factor : ℚ) ^ 2)

/-! ## Generator progressive builder (`G_puzzle`, lines 332-352)

`X` is the type of internal feature-map tensors, `block res x` the per-stage
block (lines 201-222: first block = puzzle assembly + conv, later blocks =
upscale-conv + conv, with all their weights), and `torgb res x` the per-stage
1x1 `ToRGB` projection (lines 327-330) of one output channel as a plane.
`fb` abbreviates `firstblock_res_log2` and `fb + n` is `resolution_log2`,
so `n` is the number of growth transitions. -/

/-- The body of the linear-structure loop of `G_puzzle` (lines 336-342), as a
tail recursion.  State: `c` = the current feature tensor `x`, `prev` = the
current `images_out`; `m` counts the remaining iterations, the next iteration
processing resolution `res + 1` (whose `lod` is `R - (res+1)`). -/
def G_linear_loop {X : Type} (block : ℕ → X → X) (torgb : ℕ → X → Map)
    (lod_in : ℚ) (R : ℕ) : X → Map → ℕ → ℕ → Map
  | _, prev, _, 0 => prev
  | c, prev, res, m + 1 =>
      let c1 := block (res + 1) c
      let img := torgb (res + 1) c1
      let prev1 := lerpClipMap img (upscale2d prev 2) (lod_in - ((R : ℚ) - ((res : ℚ) + 1)))
      G_linear_loop block torgb lod_in R c1 prev1 (res + 1) m

/-- `G_puzzle` with `structure = 'linear'` (lines 333-342): the first block and
its `torgb` (lines 334-335), then the growth loop. -/
def G_linear {X : Type} (block : ℕ → X → X) (torgb : ℕ → X → Map)
    (lod_in : ℚ) (combo : X) (fb n : ℕ) : Map :=
  G_linear_loop block torgb lod_in (fb + n)
    (block fb combo) (torgb fb (block fb combo)) fb n

/-- `grow(x, res, lod)` of `G_puzzle` with `structure = 'recursive'`
(lines 346-351).  The `cset` chain gives the later-installed condition
priority: descend when `lod > 0` and `lod_in < lod`; otherwise blend with the
coarser input when `res > firstblock_res_log2` and `lod_in > lod` (an
unclipped `lerp`, line 349); otherwise the plain upscaled `torgb`. -/
def grow {X : Type} (block : ℕ → X → X) (torgb : ℕ → X → Map)
    (lod_in : ℚ) (fb : ℕ) : X → ℕ → ℕ → Map
  | x, res, 0 =>
      let y := block res x
      if fb < res ∧ 0 < lod_in then
        upscale2d (lerpMap (torgb res y) (upscale2d (torgb (res - 1) x) 2) (lod_in - 0)) (2 ^ 0)
      else upscale2d (torgb res y) (2 ^ 0)
  | x, res, lod + 1 =>
      let y := block res x
      if lod_in < (lod : ℚ) + 1 then grow block torgb lod_in fb y (res + 1) lod
      else if fb < res ∧ (lod : ℚ) + 1 < lod_in then
        upscale2d (lerpMap (torgb res y) (upscale2d (torgb (res - 1) x) 2)
          (lod_in - ((lod : ℚ) + 1))) (2 ^ (lod + 1))
      else upscale2d (torgb res y) (2 ^ (lod + 1))

/-- `G_puzzle` with `structure = 'recursive'` (line 352):
`grow(combo_in, firstblock_res_log2, resolution_log2 - firstblock_res_log2)`. -/
def G_recursive {X : Type} (block : ℕ → X → X) (torgb : ℕ → X → Map)
    (lod_in : ℚ) (combo : X) (fb n : ℕ) : Map :=
  grow block torgb lod_in fb combo fb n

/-- Variant of `grow` whose two blend branches use the clipped `lerp_clip`
instead of the unclipped `lerp` of line 349; used to state that inside the
full recursive generator graph every executed blend equals the clipped
formula. -/
def growClip {X : Type} (block : ℕ → X → X) (torgb : ℕ → X → Map)
    (lod_in : ℚ) (fb : ℕ) : X → ℕ → ℕ → Map
  | x, res, 0 =>
      let y := block res x
      if fb < res ∧ 0 < lod_in then
        upscale2d (lerpClipMap (torgb res y) (upscale2d (torgb (res - 1) x) 2) (lod_in - 0)) (2 ^ 0)
      else upscale2d (torgb res y) (2 ^ 0)
  | x, res, lod + 1 =>
      let y := block res x
      if lod_in < (lod : ℚ) + 1 then growClip block torgb lod_in fb y (res + 1) lod
      else if fb < res ∧ (lod : ℚ) + 1 < lod_in then
        upscale2d (lerpClipMap (torgb res y) (upscale2d (torgb (res - 1) x) 2)
          (lod_in - ((lod : ℚ) + 1))) (2 ^ (lod + 1))
      else upscale2d (torgb res y) (2 ^ (lod + 1))

/-- The `images_out` value entering the linear loop at stage `res` (with
`lod = R - res`): for the first block it is the plain `torgb`; for a later
stage it is the blend computed at that stage by lines 341-342.  This is the
loop invariant tying `grow` to the linear loop. -/
def mkPrevG {X : Type} (block : ℕ → X → X) (torgb : ℕ → X → Map)
    (lod_in : ℚ) (fb : ℕ) (x : X) (res lod : ℕ) : Map :=
  if fb < res then
    lerpClipMap (torgb res (block res x)) (upscale2d (torgb (res - 1) x) 2)
      (lod_in - (lod : ℚ))
  else torgb res (block res x)

/-! ## Discriminator progressive builder (`D_puzzle`, lines 419-440)

Internal feature tensors of the discriminator are blended (`lerp_clip` at
line 429, `lerp` at line 438), so the feature type is taken plane-wise too:
`fromrgb res img` (lines 393-395) and `blockD res x` (lines 396-417, with
`blockD fb` producing the score) are arbitrary per-stage functions. -/

/-- The body of the linear-structure loop of `D_puzzle` (lines 420-430), as a
tail recursion; `m` counts remaining iterations, the current one processing
resolution `fb + m` (whose `lod` is `R - (fb + m)`); after the loop the first
block produces the scores (line 430). -/
def D_linear_loop (fromrgb : ℕ → Map → Map) (blockD : ℕ → Map → Map)
    (lod_in : ℚ) (R fb : ℕ) : Map → Map → ℕ → Map
  | x, _, 0 => blockD fb x
  | x, img, m + 1 =>
      let x1 := blockD (fb + m + 1) x
      let img1 := downscale2d img 2
      D_linear_loop fromrgb blockD lod_in R fb
        (lerpClipMap x1 (fromrgb (fb + m) img1)
          (lod_in - ((R : ℚ) - ((fb : ℚ) + (m : ℚ) + 1)))) img1 m

/-- `D_puzzle` with `structure = 'linear'` (lines 420-430). -/
def D_linear (fromrgb : ℕ → Map → Map) (blockD : ℕ → Map → Map)
    (lod_in : ℚ) (imagesIn : Map) (fb n : ℕ) : Map :=
  D_linear_loop fromrgb blockD lod_in (fb + n) fb
    (fromrgb (fb + n) imagesIn) imagesIn n

/-- `grow(res, lod)` of `D_puzzle` with `structure = 'recursive'`
(lines 434-439): the input either descends to the finer stage (when
`lod > 0` and `lod_in < lod`) or reads the downscaled image; after the block,
when `res > firstblock_res_log2` and `lod_in > lod`, the result is blended by
an unclipped `lerp` (line 438) with the coarser `fromrgb`. -/
def dGrow (fromrgb : ℕ → Map → Map) (blockD : ℕ → Map → Map)
    (lod_in : ℚ) (fb : ℕ) (imagesIn : Map) : ℕ → ℕ → Map
  | res, 0 =>
      let xin := fromrgb res (downscale2d imagesIn (2 ^ 0))
      let x1 := blockD res xin
      if fb < res ∧ 0 < lod_in then
        lerpMap x1 (fromrgb (res - 1) (downscale2d imagesIn (2 ^ 1))) (lod_in - 0)
      else x1
  | res, lod + 1 =>
      let xin :=
        if lod_in < (lod : ℚ) + 1 then dGrow fromrgb blockD lod_in fb imagesIn (res + 1) lod
        else fromrgb res (downscale2d imagesIn (2 ^ (lod + 1)))
      let x1 := blockD res xin
      if fb < res ∧ (lod : ℚ) + 1 < lod_in then
        lerpMap x1 (fromrgb (res - 1) (downscale2d imagesIn (2 ^ (lod + 2))))
          (lod_in - ((lod : ℚ) + 1))
      else x1

/-- `D_puzzle` with `structure = 'recursive'` (line 440). -/
def D_recursive (fromrgb : ℕ → Map → Map) (blockD : ℕ → Map → Map)
    (lod_in : ℚ) (imagesIn : Map) (fb n : ℕ) : Map :=
  dGrow fromrgb blockD lod_in fb imagesIn fb n

/-- The feature tensor `x` that the linear discriminator loop holds before
processing stage `res` (equivalently, the output of stage `res + 1`), defined
top-down from the full-resolution end; `d = R - res`.  `xB 0 res` is the
initial `fromrgb` of the full-resolution image (line 422), `xB (d+1) res` the
stage-(`res+1`) blend of lines 425-429. -/
def xB (fromrgb : ℕ → Map → Map) (blockD : ℕ → Map → Map)
    (lod_in : ℚ) (imagesIn : Map) : ℕ → ℕ → Map
  | 0, res => fromrgb res imagesIn
  | d + 1, res =>
      lerpClipMap (blockD (res + 1) (xB fromrgb blockD lod_in imagesIn d (res + 1)))
        (fromrgb res (downscale2d imagesIn (2 ^ (d + 1)))) (lod_in - (d : ℚ))

/-! ## Puzzle assembly tiling (`first_layer`, lines 224-325)

Each supported mode reshapes independent dense projections into rectangular
sub-tiles of fixed sizes and concatenates them along the height (axis 2) and
width (axis 3) of the NCHW feature map.  `Placed` records the rectangles of
an assembled (sub-)tensor together with its spatial extent; `vcat` / `hcat`
are `tf.concat(..., axis=2)` / `tf.concat(..., axis=3)` of two pieces (the
source's three- and four-way concats are right-nested binary ones, which
yields the same placements). -/

/-- An axis-aligned rectangle of a feature map: rows `[top, top+h)`,
columns `[left, left+w)`. -/
structure Rect where
  top : ℕ
  left : ℕ
  h : ℕ
  w : ℕ
deriving DecidableEq, Repr

/-- Does the rectangle contain pixel (i, j)? -/
def Rect.contains (r : Rect) (i j : ℕ) : Bool :=
  decide (r.top ≤ i) && decide (i < r.top + r.h) &&
  decide (r.left ≤ j) && decide (j < r.left + r.w)

/-- An assembled collection of placed tiles with spatial extent `H` × `W`. -/
structure Placed where
  rects : List Rect
  H : ℕ
  W : ℕ
deriving DecidableEq, Repr

/-- A single reshaped dense output of spatial size `h` × `w` (the
`tf.reshape(..., [-1, nf, h, w])` of the source). -/
def tileP (h w : ℕ) : Placed := ⟨[⟨0, 0, h, w⟩], h, w⟩

/-- `tf.concat((a, b), axis=2)`: stack along the height. -/
def vcat (a b : Placed) : Placed :=
  ⟨a.rects ++ b.rects.map (fun r => ⟨r.top + a.H, r.left, r.h, r.w⟩), a.H + b.H, a.W⟩

/-- `tf.concat((a, b), axis=3)`: stack along the width. -/
def hcat (a b : Placed) : Placed :=
  ⟨a.rects ++ b.rects.map (fun r => ⟨r.top, r.left + a.W, r.h, r.w⟩), a.H, a.W + b.W⟩

/-- Mode `'2parts-faces'` (lines 234-253):
`concat((x11, concat((x12, x2, x14), axis=3), x13), axis=2)` with
x11 : 2x8, x12 : 4x2, x2 : 4x4, x14 : 4x2, x13 : 2x8. -/
def layout2faces : Placed :=
  vcat (tileP 2 8) (vcat (hcat (tileP 4 2) (hcat (tileP 4 4) (tileP 4 2))) (tileP 2 8))

/-- Mode `'5parts-faces'` (lines 255-291): innermost
`concat((x51, concat((x4, x52), axis=2), x53), axis=3)` (3x4), then
`concat((x12, x2, x3, that), axis=2)` (8x4), then
`concat((x11, that, x13), axis=3)` (8x8); x11/x13 : 8x2, x12 : 1x4,
x2/x3 : 2x4, x4 : 2x2, x51/x53 : 3x1, x52 : 1x2. -/
def layout5faces : Placed :=
  hcat (tileP 8 2)
    (hcat
      (vcat (tileP 1 4)
        (vcat (tileP 2 4)
          (vcat (tileP 2 4)
            (hcat (tileP 3 1) (hcat (vcat (tileP 2 2) (tileP 1 2)) (tileP 3 1))))))
      (tileP 8 2))

/-- Mode `'2parts-bedrooms'` (lines 293-303): `concat((x1, x2), axis=2)`,
both tiles 4x8. -/
def layout2bedrooms : Placed := vcat (tileP 4 8) (tileP 4 8)

/-- Mode `'4parts-digits'` (lines 305-323):
`concat((concat((x1, x2), axis=3), concat((x3, x4), axis=3)), axis=2)`,
all four tiles 8x8. -/
def layout4digits : Placed :=
  vcat (hcat (tileP 8 8) (tileP 8 8)) (hcat (tileP 8 8) (tileP 8 8))

/-- The tile layout assembled by `first_layer` for each recognised mode;
`none` when no `if mode == ...` branch of lines 234-323 fires. -/
def modeLayout (mode : String) : Option Placed :=
  if mode = "2parts-faces" then some layout2faces
  else if mode = "5parts-faces" then some layout5faces
  else if mode = "2parts-bedrooms" then some layout2bedrooms
  else if mode = "4parts-digits" then some layout4digits
  else none

/-- The rectangles of `P` are pairwise disjoint and tile `[0,H) × [0,W)`
exactly: each rectangle stays inside the extent and every pixel of the extent
lies in exactly one rectangle. -/
def isExactTiling (P : Placed) : Prop :=
  (∀ r ∈ P.rects, r.top + r.h ≤ P.H ∧ r.left + r.w ≤ P.W) ∧
  ∀ i < P.H, ∀ j < P.W, (P.rects.filter (fun r => r.contains i j)).length = 1

instance (P : Placed) : Decidable (isExactTiling P) := by
  unfold isExactTiling; infer_instance

/-! ## Shape-level model of the first block (claim C2)

`first_layer` (lines 224-325) receives the 2-D latent tensor
`[batch, latent_total]`.  Every recognised mode rebinds `x` to a 4-D
assembled map `[batch, channels, H, W]`; when no branch fires, `x` is left
bound to the 2-D input and `PN(act(apply_bias(x)))` (line 325) still succeeds
on a rank-2 tensor (`apply_bias` has an explicit 2-D case, lines 60-61).
The enclosing `block` (lines 203-208) then calls `conv2d`, and
`tf.nn.conv2d` (line 52) requires a rank-4 input. -/

/-- The shape of the tensor returned by `first_layer` for a given mode. -/
def first_layer_shape (mode : String) (batch latentTotal channels : ℕ) : List ℕ :=
  match modeLayout mode with
  | some P => [batch, channels, P.H, P.W]
  | none => [batch, latentTotal]

/-- Shape semantics of `conv2d` (lines 48-52): defined only on rank-4 NCHW
inputs (SAME padding and stride 1 preserve the spatial extent); `none` models
the rank error raised by `tf.nn.conv2d` otherwise. -/
def conv2d_shape (s : List ℕ) (fmaps : ℕ) : Option (List ℕ) :=
  match s with
  | [b, _, h, w] => some [b, fmaps, h, w]
  | _ => none

/-- `int(np.log2(firstblock_res))` (line 192); the default configuration has
`firstblock_res = 8` (line 166). -/
def firstblock_res_default : ℕ := 8

/-! ## `get_weight` (lines 25-33)

`fan_in = np.prod(shape[:-1])` (an empty product is 1), `std = gain /
sqrt(fan_in)`; both the `use_wscale` branch and the plain branch create the
variable and return it.  No branch examines the rank of `shape`.  To stay in
exact arithmetic the squared init scale `std² = gain² / fan_in` is recorded. -/

/-- `np.prod(shape[:-1])`. -/
def fan_in (shape : List ℕ) : ℕ := shape.dropLast.prod

/-- The tensor returned by `get_weight`, described by its shape, its squared
init scale and whether the equalized-learning-rate scaling was applied. -/
structure WeightTensor where
  shape : List ℕ
  stdSq : ℚ
  wscaled : Bool
deriving DecidableEq, Repr

/-- `get_weight(shape, gain, use_wscale)` (lines 25-33); `gainSq = gain²`.
The source performs no validation, so the result is always `some`. -/
def get_weight (shape : List ℕ) (gainSq : ℚ) (use_wscale : Bool) : Option WeightTensor :=
  some ⟨shape, gainSq / (fan_in shape : ℚ), use_wscale⟩

/-! ## Exact integer-indexed convolution model (claim C7)

For the fused scaling layers the spatial extent matters, so planes are
indexed over all of ℤ×ℤ with the convention that a finite NCHW tensor of
spatial size H×W occupies `[0,H)×[0,W)` and is zero elsewhere; TensorFlow's
SAME zero padding is then just reading the extended plane, and on the valid
output window the formulas below agree with the TF kernels.  For a stride-`s`
SAME convolution with kernel size `K` on an even-sized input TF pads
`K - s` zeros in total, `(K - s) / 2` of them before the origin; for
`conv2d` (stride 1, odd `K = k`) and for the fused kernels (stride 2,
even `K = k + 1`) this offset is `(k - 1) / 2` in both cases.
`tf.nn.conv2d` computes a cross-correlation; `tf.nn.conv2d_transpose` is its
adjoint, so each input pixel `(i, j)` of the transpose spreads the filter at
output positions `(2i + pad - a, 2j + pad - b)`. -/

abbrev IMap : Type := ℕ → ℤ → ℤ → ℚ

abbrev KMap : Type := ℕ → ℕ → ℕ → ℕ → ℚ

/-- `conv2d(x, w)` (lines 48-52): stride-1 SAME cross-correlation; `w` is
indexed `(a, b, cin, cout)` with `a, b < k`, and the padding offset is
`(k - 1) / 2`. -/
def conv2dZ (x : IMap) (w : KMap) (Cin k : ℕ) : IMap := fun cout u v =>
  ∑ c in Finset.range Cin, ∑ a in Finset.range k, ∑ b in Finset.range k,
    w a b c cout * x c (u + (a : ℤ) - (((k - 1) / 2 : ℕ) : ℤ))
                       (v + (b : ℤ) - (((k - 1) / 2 : ℕ) : ℤ))

/-- `upscale2d` on ℤ-indexed planes: nearest-neighbour replication; with the
zero-extension convention this is floor division of the coordinates. -/
def upscale2dZ (x : IMap) (factor : ℕ) : IMap := fun c u v =>
  x c (u / (factor : ℤ)) (v / (factor : ℤ))

/-- `downscale2d` on ℤ-indexed planes: average pooling with window and
stride `factor`. -/
def downscale2dZ (x : IMap) (factor : ℕ) : IMap := fun c u v =>
  (∑ a in Finset.range factor, ∑ b in Finset.range factor,
      x c ((factor : ℤ) * u + a) ((factor : ℤ) * v + b)) / ((factor : ℚ) ^ 2)

/-- `tf.pad(w, [[1,1],[1,1],[0,0],[0,0]])` (lines 93 and 116): one ring of
spatial zeros around a `k`×`k` kernel, giving a `(k+2)`×`(k+2)` kernel. -/
def padK (w : KMap) (k : ℕ) : KMap := fun a b ci co =>
  if 1 ≤ a ∧ a ≤ k ∧ 1 ≤ b ∧ b ≤ k then w (a - 1) (b - 1) ci co else 0

/-- `tf.add_n([w[1:,1:], w[:-1,1:], w[1:,:-1], w[:-1,:-1]])` of the padded
kernel (lines 94 and 117): the four spatially shifted copies summed, a
`(k+1)`×`(k+1)` kernel. -/
def spreadK (w : KMap) (k : ℕ) : KMap := fun a b ci co =>
  padK w k (a + 1) (b + 1) ci co + padK w k a (b + 1) ci co +
  padK w k (a + 1) b ci co + padK w k a b ci co

/-- `tf.nn.conv2d_transpose(x, f, os, strides=[1,1,2,2], padding='SAME')`
with filter `f` indexed `(a, b, cout, cin)` of spatial size `K` and the SAME
offset `pad` of the underlying forward convolution: the adjoint of the
stride-2 SAME cross-correlation.  Output pixel `(u, v)` collects
`f a b * x ((u + pad - a) / 2) ((v + pad - b) / 2)` over the kernel indices
for which the divisions are exact. -/
def conv2d_transpose_s2 (x : IMap) (f : KMap) (Cin K pad : ℕ) : IMap := fun cout u v =>
  ∑ c in Finset.range Cin, ∑ a in Finset.range K, ∑ b in Finset.range K,
    if (u + (pad : ℤ) - a) % 2 = 0 ∧ (v + (pad : ℤ) - b) % 2 = 0 then
      f a b cout c * x c ((u + (pad : ℤ) - a) / 2) ((v + (pad : ℤ) - b) / 2)
    else 0

/-- Stride-2 SAME cross-correlation with a filter of spatial size `K`
indexed `(a, b, cin, cout)` and padding offset `pad` (used by
`conv2d_downscale2d`, line 119). -/
def conv2d_s2 (x : IMap) (f : KMap) (Cin K pad : ℕ) : IMap := fun cout u v =>
  ∑ c in Finset.range Cin, ∑ a in Finset.range K, ∑ b in Finset.range K,
    f a b c cout * x c (2 * u + (a : ℤ) - (pad : ℤ)) (2 * v + (b : ℤ) - (pad : ℤ))

/-- `upscale2d_conv2d(x, w)` (lines 89-97): transpose the kernel to
`[k, k, out, in]` (line 92), pad and sum the four shifted copies
(lines 93-94), then a stride-2 SAME transposed convolution to twice the
spatial size (lines 96-97). -/
def upscale2d_conv2d (x : IMap) (w : KMap) (Cin k : ℕ) : IMap :=
  conv2d_transpose_s2 x (spreadK (fun a b co ci => w a b ci co) k) Cin (k + 1) ((k - 1) / 2)

/-- `conv2d_downscale2d(x, w)` (lines 113-119): pad and sum the four shifted
copies scaled by `0.25` (lines 116-117), then a stride-2 SAME convolution. -/
def conv2d_downscale2d (x : IMap) (w : KMap) (Cin k : ℕ) : IMap :=
  conv2d_s2 x (fun a b ci co => spreadK w k a b ci co * (1 / 4)) Cin (k + 1) ((k - 1) / 2)

/-- Spatial 180° rotation of a `k`×`k` kernel (the adjoint in
`conv2d_transpose` flips the kernel relative to cross-correlation). -/
def flipK (w : KMap) (k : ℕ) : KMap := fun a b ci co => w (k - 1 - a) (k - 1 - b) ci co

/-- A concrete single-channel test image: 1 at the origin, 0 elsewhere. -/
def xC7 : IMap := fun _ u v => if u = 0 ∧ v = 0 then 1 else 0

/-- A concrete spatially asymmetric 3×3 kernel: 1 at the top-left corner,
0 elsewhere. -/
def wC7 : KMap := fun a b _ _ => if a = 0 ∧ b = 0 then 1 else 0

/-! ## Feature-map count schedule (`nf`, lines 186 and 379)

`nf(stage) = min(int(fmap_base / (2.0 ** (stage * fmap_decay))), fmap_max)`.
The float arithmetic is modelled over the exact reals; since `fmap_base > 0`
the quotient is positive, so Python's toward-zero `int()` is the floor. -/

/-- `nf(stage)` over exact reals. -/
noncomputable def nf (fmap_base fmap_decay : ℝ) (fmap_max : ℤ) (stage : ℕ) : ℤ :=
  min ⌊fmap_base / (2 : ℝ) ^ ((stage : ℝ) * fmap_decay)⌋ fmap_max

/-! ## Label inputs of the two networks (claim C10)

`G_puzzle` only shape-checks `labels_in` (line 195); `D_puzzle` shape-checks
and casts it (lines 386, 388).  Neither value flows into the computation.
A label tensor is modelled as its list of rows; the `set_shape` contract is
the check that every row has the declared width. -/

abbrev Labels := List (List ℚ)

/-- `labels_in.set_shape([None, label_size])`: every row has width
`label_size`. -/
def labelsOk (label_size : ℕ) (labels : Labels) : Bool :=
  labels.all fun row => row.length = label_size

/-- `G_puzzle` (lines 160-356) at the level of the progressive builder:
shape-checks the labels, then builds the linear or recursive graph from the
latent-derived `combo_in` (labels are never read again). -/
def G_puzzle {X : Type} (block : ℕ → X → X) (torgb : ℕ → X → Map)
    (lod_in : ℚ) (label_size : ℕ) (structLinear : Bool)
    (combo : X) (labels : Labels) (fb n : ℕ) : Option Map :=
  if labelsOk label_size labels then
    some (if structLinear then G_linear block torgb lod_in combo fb n
          else G_recursive block torgb lod_in combo fb n)
  else none

/-- `D_puzzle` (lines 359-444) at the level of the progressive builder:
shape-checks (and notionally casts) the labels, then builds the linear or
recursive graph from `images_in` (labels are never read again). -/
def D_puzzle (fromrgb : ℕ → Map → Map) (blockD : ℕ → Map → Map)
    (lod_in : ℚ) (label_size : ℕ) (structLinear : Bool)
    (imagesIn : Map) (labels : Labels) (fb n : ℕ) : Option Map :=
  if labelsOk label_size labels then
    some (if structLinear then D_linear fromrgb blockD lod_in imagesIn fb n
          else D_recursive fromrgb blockD lod_in imagesIn fb n)
  else none

/-! # Theorems -/

/-! ## Basic lemmas about the blending and scaling primitives -/

theorem lerp_clip_of_nonpos (a b t : ℚ) (h : t ≤ 0) : lerp_clip a b t = a := by
  unfold lerp_clip clip_by_value
  rw [max_eq_right h, min_eq_left (by norm_num)]
  ring

theorem lerp_clip_of_one_le (a b t : ℚ) (h : 1 ≤ t) : lerp_clip a b t = b := by
  unfold lerp_clip clip_by_value
  rw [max_eq_left (le_trans (by norm_num) h), min_eq_right h]
  ring

theorem lerp_eq_lerp_clip (a b t : ℚ) (h0 : 0 ≤ t) (h1 : t ≤ 1) :
    lerp a b t = lerp_clip a b t := by
  unfold lerp lerp_clip clip_by_value
  rw [max_eq_left h0, min_eq_left h1]

theorem lerpClipMap_of_nonpos (a b : Map) (t : ℚ) (h : t ≤ 0) : lerpClipMap a b t = a := by
  funext i j
  exact lerp_clip_of_nonpos (a i j) (b i j) t h

theorem lerpClipMap_of_one_le (a b : Map) (t : ℚ) (h : 1 ≤ t) : lerpClipMap a b t = b := by
  funext i j
  exact lerp_clip_of_one_le (a i j) (b i j) t h

theorem lerpMap_eq_lerpClipMap (a b : Map) (t : ℚ) (h0 : 0 ≤ t) (h1 : t ≤ 1) :
    lerpMap a b t = lerpClipMap a b t := by
  funext i j
  exact lerp_eq_lerp_clip (a i j) (b i j) t h0 h1

theorem upscale2d_one (x : Map) : upscale2d x 1 = x := by
  funext i j
  simp [upscale2d]

theorem upscale2d_upscale2d (x : Map) (a b : ℕ) :
    upscale2d (upscale2d x a) b = upscale2d x (b * a) := by
  funext i j
  simp [upscale2d, Nat.div_div_eq_div_mul]

/-- Splitting `Finset.range (m + n)` sums at `m`. -/
theorem sum_range_add (m n : ℕ) (F : ℕ → ℚ) :
    ∑ i in Finset.range (m + n), F i =
      (∑ i in Finset.range m, F i) + ∑ i in Finset.range n, F (m + i) := by
  induction n with
  | zero => simp
  | succ n ih => rw [← Nat.add_assoc, Finset.sum_range_succ, ih, Finset.sum_range_succ, add_assoc]

/-- Splitting a `Finset.range (b * a)` sum into blocks of length `a`. -/
theorem sum_range_mul (a b : ℕ) (F : ℕ → ℚ) :
    ∑ m in Finset.range (b * a), F m =
      ∑ p in Finset.range b, ∑ r in Finset.range a, F (p * a + r) := by
  induction b with
  | zero => simp
  | succ b ih =>
      rw [Nat.succ_mul, sum_range_add, ih, Finset.sum_range_succ]

theorem downscale2d_one (x : Map) : downscale2d x 1 = x := by
  funext i j
  simp [downscale2d]

theorem downscale2d_downscale2d (x : Map) (a b : ℕ) :
    downscale2d (downscale2d x a) b = downscale2d x (b * a) := by
  funext i j
  unfold downscale2d
  simp only [← Finset.sum_div, div_div, sum_range_mul a b]
  have hd : ((b * a : ℕ) : ℚ) ^ 2 = (a : ℚ) ^ 2 * (b : ℚ) ^ 2 := by push_cast; ring
  rw [hd]
  congr 1
  apply Finset.sum_congr rfl
  intro p _
  rw [Finset.sum_comm]
  apply Finset.sum_congr rfl
  intro r _
  apply Finset.sum_congr rfl
  intro q _
  apply Finset.sum_congr rfl
  intro s _
  congr 1 <;> ring

/-! ## Generator: the recursive structure equals the linear structure

`grow` is called at `(x, res, lod)` with `res + lod = resolution_log2`; the
descent guard `lod_in < lod` of the caller gives the reachability invariant
`lod_in ≤ lod + 1` at every call below the root.  Under that invariant the
`images_out` the linear loop would hold at stage `res` collapses to
`mkPrevG`, which drives the induction. -/

/-- When `lod ≤ lod_in` every remaining blend of the linear generator loop
saturates to the upscaled coarser image, so the loop is a pure upscale. -/
theorem G_linear_loop_sat {X : Type} (block : ℕ → X → X) (torgb : ℕ → X → Map)
    (lod_in : ℚ) (R : ℕ) :
    ∀ (lod res : ℕ) (c : X) (prev : Map), res + lod = R → (lod : ℚ) ≤ lod_in →
      G_linear_loop block torgb lod_in R c prev res lod = upscale2d prev (2 ^ lod) := by
  intro lod
  induction lod with
  | zero =>
      intro res c prev _ _
      simp [G_linear_loop, upscale2d_one]
  | succ lod ih =>
      intro res c prev hR hle
      have hRq : (R : ℚ) = (res : ℚ) + (lod : ℚ) + 1 := by exact_mod_cast hR.symm
      push_cast at hle
      simp only [G_linear_loop]
      rw [lerpClipMap_of_one_le _ _ _ (by rw [hRq]; linarith)]
      rw [ih (res + 1) _ _ (by omega) (by linarith)]
      rw [upscale2d_upscale2d, ← pow_succ]

/-- When `lod_in ≤ lod`, the stage-`res` blend collapses to the plain
`torgb` of the stage output. -/
theorem mkPrevG_collapse {X : Type} (block : ℕ → X → X) (torgb : ℕ → X → Map)
    (lod_in : ℚ) (fb : ℕ) (x : X) (res lod : ℕ) (h : lod_in ≤ (lod : ℚ)) :
    mkPrevG block torgb lod_in fb x res lod = torgb res (block res x) := by
  unfold mkPrevG
  split
  · exact lerpClipMap_of_nonpos _ _ _ (by linarith)
  · rfl

/-- Main generator induction: below the root (or at it, when `res = fb`),
`grow` equals the remaining linear loop started from the collapsed
`images_out` state `mkPrevG`. -/
theorem grow_eq_G_linear_loop {X : Type} (block : ℕ → X → X) (torgb : ℕ → X → Map)
    (lod_in : ℚ) (fb R : ℕ) :
    ∀ (lod res : ℕ) (x : X), res + lod = R → fb ≤ res →
      (lod_in ≤ (lod : ℚ) + 1 ∨ res = fb) →
      grow block torgb lod_in fb x res lod =
        G_linear_loop block torgb lod_in R (block res x)
          (mkPrevG block torgb lod_in fb x res lod) res lod := by
  intro lod
  induction lod with
  | zero =>
      intro res x _ _ hc
      simp only [grow, G_linear_loop, pow_zero, upscale2d_one, mkPrevG,
        Nat.cast_zero, sub_zero]
      by_cases hgz : fb < res
      · rw [if_pos hgz]
        by_cases hp : 0 < lod_in
        · rw [if_pos ⟨hgz, hp⟩]
          have hle1 : lod_in ≤ 1 := by
            rcases hc with hc | hc
            · simpa using hc
            · exact absurd hgz (by omega)
          rw [lerpMap_eq_lerpClipMap _ _ _ hp.le hle1]
        · rw [if_neg (by tauto), lerpClipMap_of_nonpos _ _ _ (not_lt.mp hp)]
      · rw [if_neg hgz, if_neg (by tauto)]
  | succ lod ih =>
      intro res x hR hfb hc
      have hRq : (R : ℚ) = (res : ℚ) + (lod : ℚ) + 1 := by exact_mod_cast hR.symm
      rw [grow]
      by_cases hA : lod_in < (lod : ℚ) + 1
      · rw [if_pos hA, ih (res + 1) (block res x) (by omega) (by omega)
          (Or.inl (by linarith))]
        simp only [G_linear_loop]
        rw [mkPrevG_collapse block torgb lod_in fb x res (lod + 1) (by push_cast; linarith)]
        have hw : lod_in - ((R : ℚ) - ((res : ℚ) + 1)) = lod_in - (lod : ℚ) := by
          rw [hRq]; ring
        rw [hw]
        unfold mkPrevG
        rw [if_pos (show fb < res + 1 by omega)]
        simp
      · rw [if_neg hA]
        push_neg at hA
        rw [G_linear_loop_sat block torgb lod_in R (lod + 1) res _ _ hR
          (by push_cast; linarith)]
        by_cases hB : fb < res ∧ (lod : ℚ) + 1 < lod_in
        · rw [if_pos hB]
          unfold mkPrevG
          rw [if_pos hB.1]
          have h1 : lod_in - ((lod : ℚ) + 1) ≤ 1 := by
            rcases hc with hc | hc
            · push_cast at hc; linarith
            · exact absurd hB.1 (by omega)
          rw [lerpMap_eq_lerpClipMap _ _ _ (by linarith [hB.2]) h1]
          push_cast
          ring_nf
        · rw [if_neg hB]
          unfold mkPrevG
          split
          · rename_i hfr
            have hle : lod_in ≤ (lod : ℚ) + 1 := by
              rcases not_and_or.mp hB with h' | h'
              · exact absurd hfr h'
              · linarith [not_lt.mp h']
            rw [lerpClipMap_of_nonpos _ _ _ (by push_cast; linarith)]
          · rfl

/-- The recursive generator graph equals the linear one. -/
theorem G_recursive_eq_G_linear {X : Type} (block : ℕ → X → X) (torgb : ℕ → X → Map)
    (lod_in : ℚ) (combo : X) (fb n : ℕ) :
    G_recursive block torgb lod_in combo fb n = G_linear block torgb lod_in combo fb n := by
  unfold G_recursive G_linear
  rw [grow_eq_G_linear_loop block torgb lod_in fb (fb + n) n fb combo rfl le_rfl
    (Or.inr rfl)]
  unfold mkPrevG
  rw [if_neg (lt_irrefl fb)]

/-! ## Discriminator: the recursive structure equals the linear structure -/

/-- When `d + 1 ≤ lod_in` the stage-(`res+1`) blend of the linear
discriminator saturates to the coarser `fromrgb` of the downscaled image. -/
theorem xB_sat (fromrgb : ℕ → Map → Map) (blockD : ℕ → Map → Map)
    (lod_in : ℚ) (imagesIn : Map) (d res : ℕ) (h : (d : ℚ) + 1 ≤ lod_in) :
    xB fromrgb blockD lod_in imagesIn (d + 1) res =
      fromrgb res (downscale2d imagesIn (2 ^ (d + 1))) := by
  rw [xB]
  exact lerpClipMap_of_one_le _ _ _ (by linarith)

/-- Main discriminator induction: below the root, `dGrow` at `(res1 + 1, lod)`
computes exactly the `x` value the linear loop holds before processing stage
`res1` (= after blending stage `res1 + 1`). -/
theorem dGrow_eq_xB (fromrgb : ℕ → Map → Map) (blockD : ℕ → Map → Map)
    (lod_in : ℚ) (imagesIn : Map) (fb R : ℕ) :
    ∀ (lod res1 : ℕ), res1 + 1 + lod = R → fb ≤ res1 → lod_in ≤ (lod : ℚ) + 1 →
      dGrow fromrgb blockD lod_in fb imagesIn (res1 + 1) lod =
        xB fromrgb blockD lod_in imagesIn (lod + 1) res1 := by
  intro lod
  induction lod with
  | zero =>
      intro res1 _ hfb hle
      simp only [dGrow, xB, pow_zero, pow_one, downscale2d_one, Nat.cast_zero,
        sub_zero, Nat.add_sub_cancel, zero_add]
      by_cases hp : 0 < lod_in
      · rw [if_pos ⟨by omega, hp⟩, lerpMap_eq_lerpClipMap _ _ _ hp.le (by simpa using hle)]
      · rw [if_neg (by tauto), lerpClipMap_of_nonpos _ _ _ (not_lt.mp hp)]
  | succ lod ih =>
      intro res1 hR hfb hle
      push_cast at hle
      simp only [dGrow]
      have hxin :
          (if lod_in < (lod : ℚ) + 1 then
            dGrow fromrgb blockD lod_in fb imagesIn (res1 + 1 + 1) lod
          else fromrgb (res1 + 1) (downscale2d imagesIn (2 ^ (lod + 1)))) =
          xB fromrgb blockD lod_in imagesIn (lod + 1) (res1 + 1) := by
        by_cases hA : lod_in < (lod : ℚ) + 1
        · rw [if_pos hA, ih (res1 + 1) (by omega) (by omega) hA.le]
        · rw [if_neg hA, xB_sat _ _ _ _ _ _ (not_lt.mp hA)]
      rw [hxin]
      by_cases hB : (lod : ℚ) + 1 < lod_in
      · rw [if_pos ⟨by omega, hB⟩]
        conv_rhs => rw [xB]
        rw [← lerpMap_eq_lerpClipMap _ _ _ (by push_cast; linarith) (by push_cast; linarith)]
        push_cast
        ring_nf
      · rw [if_neg (by tauto)]
        conv_rhs => rw [xB]
        rw [lerpClipMap_of_nonpos _ _ _ (by push_cast; linarith [not_lt.mp hB])]

/-- Bridge between the tail-recursive linear loop and the top-down `xB`
description of its `x` state. -/
theorem D_linear_loop_eq_xB (fromrgb : ℕ → Map → Map) (blockD : ℕ → Map → Map)
    (lod_in : ℚ) (imagesIn : Map) (fb R : ℕ) :
    ∀ (m d : ℕ), fb + m + d = R →
      D_linear_loop fromrgb blockD lod_in R fb
        (xB fromrgb blockD lod_in imagesIn d (fb + m)) (downscale2d imagesIn (2 ^ d)) m =
      blockD fb (xB fromrgb blockD lod_in imagesIn (d + m) fb) := by
  intro m
  induction m with
  | zero => intro d _; simp [D_linear_loop]
  | succ m ih =>
      intro d hR
      have hRq : (R : ℚ) = (fb : ℚ) + (m : ℚ) + 1 + (d : ℚ) := by exact_mod_cast hR.symm
      simp only [D_linear_loop]
      rw [downscale2d_downscale2d, ← pow_succ']
      have hw : lod_in - ((R : ℚ) - ((fb : ℚ) + (m : ℚ) + 1)) = lod_in - (d : ℚ) := by
        rw [hRq]; ring
      have hx : lerpClipMap (blockD (fb + m + 1) (xB fromrgb blockD lod_in imagesIn d (fb + m + 1)))
            (fromrgb (fb + m) (downscale2d imagesIn (2 ^ (d + 1)))) (lod_in - (d : ℚ)) =
          xB fromrgb blockD lod_in imagesIn (d + 1) (fb + m) := by
        rw [xB]
      rw [hw]
      have hsucc : fb + (m + 1) = fb + m + 1 := by omega
      rw [hsucc, hx, ih (d + 1) (by omega)]
      have hidx : d + 1 + m = d + (m + 1) := by omega
      rw [hidx]

/-- The recursive discriminator graph equals the linear one. -/
theorem D_recursive_eq_D_linear (fromrgb : ℕ → Map → Map) (blockD : ℕ → Map → Map)
    (lod_in : ℚ) (imagesIn : Map) (fb n : ℕ) :
    D_recursive fromrgb blockD lod_in imagesIn fb n =
      D_linear fromrgb blockD lod_in imagesIn fb n := by
  unfold D_recursive D_linear
  have hstart : D_linear_loop fromrgb blockD lod_in (fb + n) fb
      (fromrgb (fb + n) imagesIn) imagesIn n =
      blockD fb (xB fromrgb blockD lod_in imagesIn n fb) := by
    have h0 := D_linear_loop_eq_xB fromrgb blockD lod_in imagesIn fb (fb + n) n 0 (by omega)
    simpa [xB, downscale2d_one] using h0
  rw [hstart]
  match n with
  | 0 => simp [dGrow, xB, downscale2d_one]
  | lod + 1 =>
      simp only [dGrow]
      rw [if_neg (by simp)]
      have hxin :
          (if lod_in < (lod : ℚ) + 1 then
            dGrow fromrgb blockD lod_in fb imagesIn (fb + 1) lod
          else fromrgb fb (downscale2d imagesIn (2 ^ (lod + 1)))) =
          xB fromrgb blockD lod_in imagesIn (lod + 1) fb := by
        by_cases hA : lod_in < (lod : ℚ) + 1
        · rw [if_pos hA, dGrow_eq_xB fromrgb blockD lod_in imagesIn fb (fb + lod + 1)
            lod fb (by omega) le_rfl hA.le]
        · rw [if_neg hA, xB_sat _ _ _ _ _ _ (not_lt.mp hA)]
      rw [hxin]

/-! ## The clipped variant of the recursive generator -/

/-- Same induction as `grow_eq_G_linear_loop` for the `lerp_clip` variant
`growClip`; under the reachability invariant the clip never bites. -/
theorem growClip_eq_G_linear_loop {X : Type} (block : ℕ → X → X) (torgb : ℕ → X → Map)
    (lod_in : ℚ) (fb R : ℕ) :
    ∀ (lod res : ℕ) (x : X), res + lod = R → fb ≤ res →
      (lod_in ≤ (lod : ℚ) + 1 ∨ res = fb) →
      growClip block torgb lod_in fb x res lod =
        G_linear_loop block torgb lod_in R (block res x)
          (mkPrevG block torgb lod_in fb x res lod) res lod := by
  intro lod
  induction lod with
  | zero =>
      intro res x _ _ _
      simp only [growClip, G_linear_loop, pow_zero, upscale2d_one, mkPrevG,
        Nat.cast_zero, sub_zero]
      by_cases hgz : fb < res
      · rw [if_pos hgz]
        by_cases hp : 0 < lod_in
        · rw [if_pos ⟨hgz, hp⟩]
        · rw [if_neg (by tauto), lerpClipMap_of_nonpos _ _ _ (not_lt.mp hp)]
      · rw [if_neg hgz, if_neg (by tauto)]
  | succ lod ih =>
      intro res x hR hfb hc
      have hRq : (R : ℚ) = (res : ℚ) + (lod : ℚ) + 1 := by exact_mod_cast hR.symm
      rw [growClip]
      by_cases hA : lod_in < (lod : ℚ) + 1
      · rw [if_pos hA, ih (res + 1) (block res x) (by omega) (by omega)
          (Or.inl (by linarith))]
        simp only [G_linear_loop]
        rw [mkPrevG_collapse block torgb lod_in fb x res (lod + 1) (by push_cast; linarith)]
        have hw : lod_in - ((R : ℚ) - ((res : ℚ) + 1)) = lod_in - (lod : ℚ) := by
          rw [hRq]; ring
        rw [hw]
        unfold mkPrevG
        rw [if_pos (show fb < res + 1 by omega)]
        simp
      · rw [if_neg hA]
        push_neg at hA
        rw [G_linear_loop_sat block torgb lod_in R (lod + 1) res _ _ hR
          (by push_cast; linarith)]
        by_cases hB : fb < res ∧ (lod : ℚ) + 1 < lod_in
        · rw [if_pos hB]
          unfold mkPrevG
          rw [if_pos hB.1]
          push_cast
          ring_nf
        · rw [if_neg hB]
          unfold mkPrevG
          split
          · rename_i hfr
            have hle : lod_in ≤ (lod : ℚ) + 1 := by
              rcases not_and_or.mp hB with h' | h'
              · exact absurd hfr h'
              · linarith [not_lt.mp h']
            rw [lerpClipMap_of_nonpos _ _ _ (by push_cast; linarith)]
          · rfl

/-- The full recursive generator graph is unchanged when the unclipped
`lerp` of its blend branches is replaced by `lerp_clip`. -/
theorem grow_eq_growClip {X : Type} (block : ℕ → X → X) (torgb : ℕ → X → Map)
    (lod_in : ℚ) (combo : X) (fb n : ℕ) :
    grow block torgb lod_in fb combo fb n = growClip block torgb lod_in fb combo fb n := by
  rw [grow_eq_G_linear_loop block torgb lod_in fb (fb + n) n fb combo rfl le_rfl (Or.inr rfl),
    growClip_eq_G_linear_loop block torgb lod_in fb (fb + n) n fb combo rfl le_rfl (Or.inr rfl)]

/-! ## Claim C1: linear and recursive topologies are equivalent -/

/-- C1: for every configuration (first-block stage `fb`, number of growth
stages `n`), every fixed LOD value and identical per-stage weights (the
quantified `block`/`torgb`/`fromrgb` functions), the generator graph built
with `structure='linear'` equals the one built with `structure='recursive'`,
and likewise for the discriminator, over exact arithmetic. -/
theorem topologies_equivalent :
    (∀ (X : Type) (block : ℕ → X → X) (torgb : ℕ → X → Map) (lod_in : ℚ)
        (combo : X) (fb n : ℕ),
      G_recursive block torgb lod_in combo fb n =
        G_linear block torgb lod_in combo fb n) ∧
    (∀ (fromrgb blockD : ℕ → Map → Map) (lod_in : ℚ) (imagesIn : Map) (fb n : ℕ),
      D_recursive fromrgb blockD lod_in imagesIn fb n =
        D_linear fromrgb blockD lod_in imagesIn fb n) :=
  ⟨fun _ block torgb lod_in combo fb n =>
      G_recursive_eq_G_linear block torgb lod_in combo fb n,
   fun fromrgb blockD lod_in imagesIn fb n =>
      D_recursive_eq_D_linear fromrgb blockD lod_in imagesIn fb n⟩

/-! ## Claim C3: generator blends clamp the weight to [0, 1] -/

/-- C3: at every generator growth transition the blended output is the
clamped interpolation `lerp_clip(finer, upscale(coarser), lod_in - lod)`:
the linear loop's step is literally that blend (line 342), and the full
recursive generator graph is unchanged when the `lerp` of its blend branch
(line 349) is replaced by `lerp_clip` — every blend it actually executes has
its weight in [0, 1]. -/
theorem generator_blends_are_clipped :
    (∀ (X : Type) (block : ℕ → X → X) (torgb : ℕ → X → Map) (lod_in : ℚ)
        (combo : X) (fb n : ℕ),
      G_recursive block torgb lod_in combo fb n =
        growClip block torgb lod_in fb combo fb n) ∧
    (∀ (X : Type) (block : ℕ → X → X) (torgb : ℕ → X → Map) (lod_in : ℚ)
        (R : ℕ) (c : X) (prev : Map) (res m : ℕ),
      G_linear_loop block torgb lod_in R c prev res (m + 1) =
        G_linear_loop block torgb lod_in R (block (res + 1) c)
          (lerpClipMap (torgb (res + 1) (block (res + 1) c)) (upscale2d prev 2)
            (lod_in - ((R : ℚ) - ((res : ℚ) + 1)))) (res + 1) m) :=
  ⟨fun _ block torgb lod_in combo fb n =>
      grow_eq_growClip block torgb lod_in combo fb n,
   fun _ _ _ _ _ _ _ _ _ => rfl⟩

/-! ## Claim C4: discriminator blend forms -/

/-- The test image used to separate the clipped and unclipped blends: 4 at
the origin, 0 elsewhere (its 2-downscale has value 1 at the origin). -/
def cimg : Map := fun i j => if i = 0 ∧ j = 0 then 4 else 0

/-- Modelled from the claim and spec words ("`lerp(x, y, lod_in - lod)` (no
clip) for discriminator growth"): the linear discriminator loop with an
unclipped `lerp` at the blend, to be compared with `D_linear_loop`, whose
blend is the `lerp_clip` of source line 429. -/
def D_linear_loop_specLerp (fromrgb : ℕ → Map → Map) (blockD : ℕ → Map → Map)
    (lod_in : ℚ) (R fb : ℕ) : Map → Map → ℕ → Map
  | x, _, 0 => blockD fb x
  | x, img, m + 1 =>
      let x1 := blockD (fb + m + 1) x
      let img1 := downscale2d img 2
      D_linear_loop_specLerp fromrgb blockD lod_in R fb
        (lerpMap x1 (fromrgb (fb + m) img1)
          (lod_in - ((R : ℚ) - ((fb : ℚ) + (m : ℚ) + 1)))) img1 m

/-- The claim-version linear discriminator built on the unclipped blend. -/
def D_linear_specLerp (fromrgb : ℕ → Map → Map) (blockD : ℕ → Map → Map)
    (lod_in : ℚ) (imagesIn : Map) (fb n : ℕ) : Map :=
  D_linear_loop_specLerp fromrgb blockD lod_in (fb + n) fb
    (fromrgb (fb + n) imagesIn) imagesIn n

/-- C4 counterexample: with identity `fromrgb`/`blockD`, `fb = 2`, `n = 1`
and `lod_in = 2`, the linear discriminator's transition output (weight
`lod_in - lod = 2`, clamped to 1 by `lerp_clip`, line 429) differs from the
unclipped `lerp` the claim prescribes: at the origin the code's graph yields
1 while the unclipped blend yields -2.  So the claim is false for the linear
topology. -/
theorem D_linear_blend_is_clipped_counterexample :
    D_linear (fun _ m => m) (fun _ m => m) 2 cimg 2 1 ≠
      D_linear_specLerp (fun _ m => m) (fun _ m => m) 2 cimg 2 1 := by
  intro h
  have hv := congrFun (congrFun h 0) 0
  norm_num [D_linear, D_linear_specLerp, D_linear_loop, D_linear_loop_specLerp,
    lerpClipMap, lerpMap, lerp, lerp_clip, clip_by_value, downscale2d, cimg,
    Finset.sum_range_succ] at hv

/-- The input selector `x()` of the recursive discriminator `grow`
(lines 435-436): descend to the finer stage when `lod > 0` and
`lod_in < lod`, else read the downscaled input image. -/
def dGrowIn (fromrgb : ℕ → Map → Map) (blockD : ℕ → Map → Map)
    (lod_in : ℚ) (fb : ℕ) (imagesIn : Map) : ℕ → ℕ → Map
  | res, 0 => fromrgb res (downscale2d imagesIn (2 ^ 0))
  | res, lod + 1 =>
      if lod_in < (lod : ℚ) + 1 then dGrow fromrgb blockD lod_in fb imagesIn (res + 1) lod
      else fromrgb res (downscale2d imagesIn (2 ^ (lod + 1)))

/-- C4 (amended): at discriminator growth transitions, the recursive
topology blends with the unclipped `lerp(x, y, lod_in - lod)` (line 438):
whenever its blend guard holds (`res > firstblock_res_log2` and
`lod < lod_in`) the output is exactly that unclipped interpolation of the
blocked input with the coarser `fromrgb`; the linear topology instead clamps
the blend weight to [0, 1]: its loop step blends with `lerp_clip`
(line 429). -/
theorem discriminator_blend_forms :
    (∀ (fromrgb blockD : ℕ → Map → Map) (lod_in : ℚ) (imagesIn : Map)
        (fb res lod : ℕ), fb < res → (lod : ℚ) < lod_in →
      dGrow fromrgb blockD lod_in fb imagesIn res lod =
        lerpMap (blockD res (dGrowIn fromrgb blockD lod_in fb imagesIn res lod))
          (fromrgb (res - 1) (downscale2d imagesIn (2 ^ (lod + 1))))
          (lod_in - (lod : ℚ))) ∧
    (∀ (fromrgb blockD : ℕ → Map → Map) (lod_in : ℚ) (R fb : ℕ)
        (x img : Map) (m : ℕ),
      D_linear_loop fromrgb blockD lod_in R fb x img (m + 1) =
        D_linear_loop fromrgb blockD lod_in R fb
          (lerpClipMap (blockD (fb + m + 1) x) (fromrgb (fb + m) (downscale2d img 2))
            (lod_in - ((R : ℚ) - ((fb : ℚ) + (m : ℚ) + 1)))) (downscale2d img 2) m) := by
  constructor
  · intro fromrgb blockD lod_in imagesIn fb res lod hfb hlt
    match lod with
    | 0 =>
        simp only [dGrow, dGrowIn, Nat.cast_zero, sub_zero, pow_one, zero_add]
        rw [if_pos ⟨hfb, by simpa using hlt⟩]
    | lod + 1 =>
        simp only [dGrow, dGrowIn]
        rw [if_pos ⟨hfb, by push_cast at hlt ⊢; linarith⟩]
        have h2 : lod + 1 + 1 = lod + 2 := rfl
        have h3 : ((lod + 1 : ℕ) : ℚ) = (lod : ℚ) + 1 := by push_cast; ring
        rw [h2, h3]
  · intro fromrgb blockD lod_in R fb x img m
    rfl

/-- Witness for C4's amended theorem at `fb = 2`, `res = 3`, `lod = 0`,
`lod_in = 1`. -/
theorem discriminator_blend_forms_witness :
    (2 < 3 ∧ ((0 : ℕ) : ℚ) < 1) ∧
    dGrow (fun _ m => m) (fun _ m => m) 1 2 cimg 3 0 =
      lerpMap ((fun (_ : ℕ) (m : Map) => m) 3
          (dGrowIn (fun _ m => m) (fun _ m => m) 1 2 cimg 3 0))
        ((fun (_ : ℕ) (m : Map) => m) 2 (downscale2d cimg (2 ^ 1)))
        (1 - ((0 : ℕ) : ℚ)) :=
  ⟨⟨by norm_num, by norm_num⟩,
   discriminator_blend_forms.1 (fun _ m => m) (fun _ m => m) 1 cimg 2 3 0
     (by norm_num) (by norm_num)⟩

/-! ## Claim C9: endpoints of `lerp`, saturation of `lerp_clip` -/

/-- C9: for all `a`, `b`: `lerp a b 0 = a` and `lerp a b 1 = b`; and for `t`
outside `[0, 1]`, `lerp_clip` saturates: for `t < 0` it equals
`lerp_clip a b 0 = a`, and for `t > 1` it equals `lerp_clip a b 1 = b`. -/
theorem lerp_endpoints_and_clip_saturation :
    (∀ a b : ℚ, lerp a b 0 = a) ∧ (∀ a b : ℚ, lerp a b 1 = b) ∧
    (∀ a b t : ℚ, t < 0 →
      lerp_clip a b t = lerp_clip a b 0 ∧ lerp_clip a b 0 = a) ∧
    (∀ a b t : ℚ, 1 < t →
      lerp_clip a b t = lerp_clip a b 1 ∧ lerp_clip a b 1 = b) := by
  refine ⟨fun a b => by unfold lerp; ring, fun a b => by unfold lerp; ring, ?_, ?_⟩
  · intro a b t ht
    have h0 : lerp_clip a b 0 = a := lerp_clip_of_nonpos a b 0 le_rfl
    exact ⟨by rw [lerp_clip_of_nonpos a b t ht.le, h0], h0⟩
  · intro a b t ht
    have h1 : lerp_clip a b 1 = b := lerp_clip_of_one_le a b 1 le_rfl
    exact ⟨by rw [lerp_clip_of_one_le a b t ht.le, h1], h1⟩

/-- Witness for C9 at `a = 2`, `b = 5`, `t = -1` and `t = 3`. -/
theorem lerp_endpoints_and_clip_saturation_witness :
    ((-1 : ℚ) < 0 ∧ (1 : ℚ) < 3) ∧
    (lerp_clip (2 : ℚ) 5 (-1) = lerp_clip 2 5 0 ∧ lerp_clip (2 : ℚ) 5 0 = 2) ∧
    (lerp_clip (2 : ℚ) 5 3 = lerp_clip 2 5 1 ∧ lerp_clip (2 : ℚ) 5 1 = 5) :=
  ⟨by norm_num,
   lerp_endpoints_and_clip_saturation.2.2.1 2 5 (-1) (by norm_num),
   lerp_endpoints_and_clip_saturation.2.2.2 2 5 3 (by norm_num)⟩

/-! ## Claim C6: `get_weight` on shapes of rank below 2 -/

/-- C6 counterexample: `get_weight` applied to the rank-1 shape `[7]` does
not fail: it returns a weight tensor (of shape `[7]`, with
`fan_in = np.prod([]) = 1`), so the claim that it raises an error for shapes
with fewer than 2 dimensions is false. -/
theorem get_weight_rank1_succeeds : (get_weight [7] 2 false).isSome = true := rfl

/-- C6 (amended): `get_weight` performs no rank validation: for every shape
it returns a weight of exactly that shape with squared init scale
`gain² / fan_in`, and for shapes of rank below 2 the fan-in is the empty
product 1 (so the std is just the gain). -/
theorem get_weight_no_rank_check (shape : List ℕ) (gainSq : ℚ) (uws : Bool) :
    get_weight shape gainSq uws = some ⟨shape, gainSq / (fan_in shape : ℚ), uws⟩ ∧
    (shape.length ≤ 1 → fan_in shape = 1) := by
  refine ⟨rfl, ?_⟩
  intro h
  match shape with
  | [] => rfl
  | [a] => rfl
  | a :: b :: t => simp at h

/-- Witness for C6 at the rank-1 shape `[7]`. -/
theorem get_weight_no_rank_check_witness :
    ([7] : List ℕ).length ≤ 1 ∧ fan_in [7] = 1 :=
  ⟨by decide, (get_weight_no_rank_check [7] 2 false).2 (by decide)⟩

/-! ## Claim C8: the feature-map schedule `nf` -/

/-- C8: with positive `fmap_base`, non-negative `fmap_decay` and positive
`fmap_max`, `nf` is non-increasing in the stage and never exceeds
`fmap_max`. -/
theorem nf_antitone_and_bounded (fmap_base fmap_decay : ℝ) (fmap_max : ℤ)
    (hbase : 0 < fmap_base) (hdecay : 0 ≤ fmap_decay) (_hmax : 0 < fmap_max) :
    (∀ s1 s2 : ℕ, s1 ≤ s2 →
      nf fmap_base fmap_decay fmap_max s2 ≤ nf fmap_base fmap_decay fmap_max s1) ∧
    (∀ s : ℕ, nf fmap_base fmap_decay fmap_max s ≤ fmap_max) := by
  constructor
  · intro s1 s2 h
    unfold nf
    refine min_le_min (Int.floor_le_floor ?_) le_rfl
    have hpow : (2 : ℝ) ^ ((s1 : ℝ) * fmap_decay) ≤ (2 : ℝ) ^ ((s2 : ℝ) * fmap_decay) :=
      (Real.rpow_le_rpow_left_iff (by norm_num)).mpr
        (mul_le_mul_of_nonneg_right (by exact_mod_cast h) hdecay)
    have hpos : (0 : ℝ) < (2 : ℝ) ^ ((s1 : ℝ) * fmap_decay) :=
      Real.rpow_pos_of_pos (by norm_num) _
    exact div_le_div_of_nonneg_left hbase.le hpos hpow
  · intro s
    exact min_le_right _ _

/-- Witness for C8 at the default configuration
`fmap_base = 8192`, `fmap_decay = 1`, `fmap_max = 512`, stages 1 ≤ 3. -/
theorem nf_antitone_and_bounded_witness :
    ((0 : ℝ) < 8192 ∧ (0 : ℝ) ≤ 1 ∧ (0 : ℤ) < 512) ∧
    nf 8192 1 512 3 ≤ nf 8192 1 512 1 ∧ nf 8192 1 512 5 ≤ 512 :=
  ⟨by norm_num,
   (nf_antitone_and_bounded 8192 1 512 (by norm_num) (by norm_num) (by norm_num)).1
     1 3 (by norm_num),
   (nf_antitone_and_bounded 8192 1 512 (by norm_num) (by norm_num) (by norm_num)).2 5⟩

/-! ## Claim C5: the puzzle tilings -/

/-- C5 counterexample: with the default configuration
(`firstblock_res = 8`, line 166, so `firstblock_res_log2 = 3`), the supported
mode `'4parts-digits'` assembles a 16×16 seed map (line 323), so its side is
not `2 ^ firstblock_res_log2 = 8`: `first_layer`'s hard-coded tile sizes
ignore `firstblock_res`. -/
theorem digits_seed_breaks_default_firstblock :
    modeLayout "4parts-digits" = some layout4digits ∧
    layout4digits.H ≠ 2 ^ Nat.log2 firstblock_res_default := by
  have h : Nat.log2 firstblock_res_default = 3 := by
    norm_num [Nat.log2, firstblock_res_default]
  rw [h]
  exact ⟨by decide, by decide⟩

/-- C5 (amended): for every supported mode the assembled sub-tiles are
pairwise disjoint rectangles exactly tiling the square seed map; the side is
8 (= 2^3) for `'2parts-faces'`, `'5parts-faces'` and `'2parts-bedrooms'` and
16 (= 2^4) for `'4parts-digits'`, so it equals `2 ^ firstblock_res_log2`
exactly when `firstblock_res` is configured to the mode's seed size. -/
theorem puzzle_layouts_tile_exactly :
    (isExactTiling layout2faces ∧ layout2faces.H = 8 ∧ layout2faces.W = 8) ∧
    (isExactTiling layout5faces ∧ layout5faces.H = 8 ∧ layout5faces.W = 8) ∧
    (isExactTiling layout2bedrooms ∧ layout2bedrooms.H = 8 ∧ layout2bedrooms.W = 8) ∧
    (isExactTiling layout4digits ∧ layout4digits.H = 16 ∧ layout4digits.W = 16) ∧
    layout2faces.H = 2 ^ Nat.log2 8 ∧ layout4digits.H = 2 ^ Nat.log2 16 := by
  have h8 : Nat.log2 8 = 3 := by norm_num [Nat.log2]
  have h16 : Nat.log2 16 = 4 := by norm_num [Nat.log2]
  rw [h8, h16]
  decide

/-! ## Claim C2: building with an unrecognised mode -/

/-- C2: for an unrecognised mode (here `'3parts'`) no branch of
`first_layer` fires (`modeLayout` is `none`), yet `first_layer` does not
raise a configuration error: it returns the untouched rank-2 latent tensor
(shape `[batch, latent_total]`, since `apply_bias`/activation/pixel-norm all
accept rank 2).  The build only fails afterwards, when `block` feeds that
tensor to `conv2d` and `tf.nn.conv2d` rejects a non-rank-4 input — tensors
(the latent slices, bias add, activation) have been created by then.  A
recognised mode instead reaches `conv2d` with a rank-4 map. -/
theorem unknown_mode_defers_failure_to_conv :
    modeLayout "3parts" = none ∧
    first_layer_shape "3parts" 4 512 512 = [4, 512] ∧
    conv2d_shape (first_layer_shape "3parts" 4 512 512) 512 = none ∧
    conv2d_shape (first_layer_shape "2parts-faces" 4 512 512) 512 =
      some [4, 512, 8, 8] := by decide

/-! ## Claim C10: the labels do not interfere with the outputs -/

/-- C10: for a fixed latent (resp. image) input, configuration, LOD value
and per-stage weights, and any two label tensors of the declared shape
`[batch, label_size]`, the generator (in either structure) produces identical
output images and the discriminator produces identical scores: the labels
are only shape-checked (lines 195 and 386-388) and never enter the
computation. -/
theorem labels_noninterference {X : Type} (block : ℕ → X → X) (torgb : ℕ → X → Map)
    (fromrgb : ℕ → Map → Map) (blockD : ℕ → Map → Map)
    (lod_in : ℚ) (label_size : ℕ) (structLinear : Bool)
    (combo : X) (imagesIn : Map) (fb n : ℕ) (labels1 labels2 : Labels)
    (h1 : labelsOk label_size labels1 = true) (h2 : labelsOk label_size labels2 = true) :
    G_puzzle block torgb lod_in label_size structLinear combo labels1 fb n =
      G_puzzle block torgb lod_in label_size structLinear combo labels2 fb n ∧
    D_puzzle fromrgb blockD lod_in label_size structLinear imagesIn labels1 fb n =
      D_puzzle fromrgb blockD lod_in label_size structLinear imagesIn labels2 fb n := by
  constructor <;> simp [G_puzzle, D_puzzle, h1, h2]

/-- Witness for C10: two distinct well-formed batches of 2-wide labels. -/
theorem labels_noninterference_witness :
    (labelsOk 2 [[1, 2]] = true ∧ labelsOk 2 [[3, 4]] = true) ∧
    G_puzzle (fun _ x => x) (fun _ _ => fun _ _ => (0 : ℚ)) (1 / 2) 2 true
        (0 : ℚ) [[1, 2]] 3 2 =
      G_puzzle (fun _ x => x) (fun _ _ => fun _ _ => (0 : ℚ)) (1 / 2) 2 true
        (0 : ℚ) [[3, 4]] 3 2 :=
  ⟨⟨by decide, by decide⟩,
   (labels_noninterference (fun _ x => x) (fun _ _ => fun _ _ => (0 : ℚ))
      (fun _ m => m) (fun _ m => m) (1 / 2) 2 true (0 : ℚ) (fun _ _ => 0) 3 2
      [[1, 2]] [[3, 4]] (by decide) (by decide)).1⟩

/-! ## Claim C7: the fused scaling layers

Summation plumbing: the padded-and-shifted kernel sums of `spreadK` are
reindexed onto the original `k`×`k` kernel via the four `psum` lemmas; the
parity bookkeeping of the stride-2 transposed convolution is collected by
`parity_blend`. -/

theorem ite_mul_zero (P : Prop) [Decidable P] (a x : ℚ) :
    (if P then a else 0) * x = if P then a * x else 0 := by
  split_ifs <;> simp

theorem ite_bounds_split (γ δ k : ℕ) (e : ℚ) :
    (if 1 ≤ γ ∧ γ ≤ k ∧ 1 ≤ δ ∧ δ ≤ k then e else 0) =
      (if 1 ≤ γ ∧ γ ≤ k then (if 1 ≤ δ ∧ δ ≤ k then e else 0) else 0) := by
  split_ifs <;> tauto

theorem sum_ite_of_const (P : Prop) [Decidable P] (s : Finset ℕ) (f : ℕ → ℚ) :
    ∑ i in s, (if P then f i else 0) = if P then ∑ i in s, f i else 0 := by
  split_ifs <;> simp

/-- Reindexing a guarded `range (k+1)` sum whose guard is `1 ≤ α ∧ α ≤ k`. -/
theorem shift_sum_one (k : ℕ) (G : ℕ → ℚ) :
    ∑ α in Finset.range (k + 1), (if 1 ≤ α ∧ α ≤ k then G α else 0) =
      ∑ a in Finset.range k, G (a + 1) := by
  rw [Finset.sum_range_succ']
  have h0 : (if 1 ≤ 0 ∧ 0 ≤ k then G 0 else 0) = 0 := by norm_num
  rw [h0, add_zero]
  apply Finset.sum_congr rfl
  intro i hi
  rw [Finset.mem_range] at hi
  rw [if_pos ⟨by omega, by omega⟩]

/-- Reindexing a guarded `range (k+1)` sum whose guard is
`1 ≤ α + 1 ∧ α + 1 ≤ k`. -/
theorem shift_sum_zero (k : ℕ) (G : ℕ → ℚ) :
    ∑ α in Finset.range (k + 1), (if 1 ≤ α + 1 ∧ α + 1 ≤ k then G α else 0) =
      ∑ a in Finset.range k, G a := by
  rw [Finset.sum_range_succ]
  have hk : (if 1 ≤ k + 1 ∧ k + 1 ≤ k then G k else 0) = 0 := by
    rw [if_neg (by omega)]
  rw [hk, add_zero]
  apply Finset.sum_congr rfl
  intro i hi
  rw [Finset.mem_range] at hi
  rw [if_pos ⟨by omega, by omega⟩]

theorem psum11 (k : ℕ) (w : KMap) (ci co : ℕ) (X : ℕ → ℕ → ℚ) :
    ∑ α in Finset.range (k + 1), ∑ β in Finset.range (k + 1),
      padK w k (α + 1) (β + 1) ci co * X α β =
    ∑ a in Finset.range k, ∑ b in Finset.range k, w a b ci co * X a b := by
  unfold padK
  simp only [Nat.add_sub_cancel, ite_mul_zero, ite_bounds_split, sum_ite_of_const,
    shift_sum_zero]

theorem psum01 (k : ℕ) (w : KMap) (ci co : ℕ) (X : ℕ → ℕ → ℚ) :
    ∑ α in Finset.range (k + 1), ∑ β in Finset.range (k + 1),
      padK w k α (β + 1) ci co * X α β =
    ∑ a in Finset.range k, ∑ b in Finset.range k, w a b ci co * X (a + 1) b := by
  unfold padK
  simp only [Nat.add_sub_cancel, ite_mul_zero, ite_bounds_split, sum_ite_of_const,
    shift_sum_zero, shift_sum_one]

theorem psum10 (k : ℕ) (w : KMap) (ci co : ℕ) (X : ℕ → ℕ → ℚ) :
    ∑ α in Finset.range (k + 1), ∑ β in Finset.range (k + 1),
      padK w k (α + 1) β ci co * X α β =
    ∑ a in Finset.range k, ∑ b in Finset.range k, w a b ci co * X a (b + 1) := by
  unfold padK
  simp only [Nat.add_sub_cancel, ite_mul_zero, ite_bounds_split, sum_ite_of_const,
    shift_sum_zero, shift_sum_one]

theorem psum00 (k : ℕ) (w : KMap) (ci co : ℕ) (X : ℕ → ℕ → ℚ) :
    ∑ α in Finset.range (k + 1), ∑ β in Finset.range (k + 1),
      padK w k α β ci co * X α β =
    ∑ a in Finset.range k, ∑ b in Finset.range k, w a b ci co * X (a + 1) (b + 1) := by
  unfold padK
  simp only [Nat.add_sub_cancel, ite_mul_zero, ite_bounds_split, sum_ite_of_const,
    shift_sum_one]

/-- Congruence for the triple convolution sums under a pointwise rewriting
of the two spatial index functions. -/
theorem conv_sum_congr (Cin k cout : ℕ) (w : KMap) (x : IMap)
    (f g f2 g2 : ℕ → ℤ) (hf : ∀ a, f a = f2 a) (hg : ∀ b, g b = g2 b) :
    (∑ c in Finset.range Cin, ∑ a in Finset.range k, ∑ b in Finset.range k,
      w a b c cout * x c (f a) (g b)) =
    ∑ c in Finset.range Cin, ∑ a in Finset.range k, ∑ b in Finset.range k,
      w a b c cout * x c (f2 a) (g2 b) := by
  apply Finset.sum_congr rfl
  intro c _
  apply Finset.sum_congr rfl
  intro a _
  apply Finset.sum_congr rfl
  intro b _
  rw [hf a, hg b]

theorem quarter_spread (P1 P2 P3 P4 X : ℚ) :
    ((P1 + P2 + P3 + P4) * (1 / 4)) * X =
      (P1 * X + P2 * X + P3 * X + P4 * X) / 4 := by ring

/-- The fused `conv2d_downscale2d` equals the unfused
`downscale2d(conv2d(x))`, exactly. -/
theorem conv2d_downscale2d_eq (x : IMap) (w : KMap) (Cin k : ℕ) :
    conv2d_downscale2d x w Cin k = downscale2dZ (conv2dZ x w Cin k) 2 := by
  funext cout u v
  simp only [conv2d_downscale2d, conv2d_s2, downscale2dZ, conv2dZ, spreadK]
  rw [show (((2 : ℕ) : ℚ) ^ 2) = 4 by norm_num]
  simp only [quarter_spread]
  simp only [← Finset.sum_div]
  congr 1
  simp only [Finset.sum_add_distrib, psum11, psum01, psum10, psum00]
  rw [Finset.sum_range_succ, Finset.sum_range_succ, Finset.sum_range_zero, zero_add,
    Finset.sum_range_succ, Finset.sum_range_succ, Finset.sum_range_zero, zero_add,
    Finset.sum_range_succ, Finset.sum_range_succ, Finset.sum_range_zero, zero_add]
  push_cast
  simp only [add_zero]
  rw [conv_sum_congr Cin k cout w x
      (fun a => 2 * u + ((a : ℤ) + 1) - ((k - 1 : ℕ) : ℤ) / 2)
      (fun b => 2 * v + (b : ℤ) - ((k - 1 : ℕ) : ℤ) / 2)
      (fun a => 2 * u + 1 + (a : ℤ) - ((k - 1 : ℕ) : ℤ) / 2)
      (fun b => 2 * v + (b : ℤ) - ((k - 1 : ℕ) : ℤ) / 2)
      (fun a => by ring) (fun b => rfl),
    conv_sum_congr Cin k cout w x
      (fun a => 2 * u + (a : ℤ) - ((k - 1 : ℕ) : ℤ) / 2)
      (fun b => 2 * v + ((b : ℤ) + 1) - ((k - 1 : ℕ) : ℤ) / 2)
      (fun a => 2 * u + (a : ℤ) - ((k - 1 : ℕ) : ℤ) / 2)
      (fun b => 2 * v + 1 + (b : ℤ) - ((k - 1 : ℕ) : ℤ) / 2)
      (fun a => rfl) (fun b => by ring),
    conv_sum_congr Cin k cout w x
      (fun a => 2 * u + ((a : ℤ) + 1) - ((k - 1 : ℕ) : ℤ) / 2)
      (fun b => 2 * v + ((b : ℤ) + 1) - ((k - 1 : ℕ) : ℤ) / 2)
      (fun a => 2 * u + 1 + (a : ℤ) - ((k - 1 : ℕ) : ℤ) / 2)
      (fun b => 2 * v + 1 + (b : ℤ) - ((k - 1 : ℕ) : ℤ) / 2)
      (fun a => by ring) (fun b => by ring)]
  ring

theorem ite_spread_pull (E : Prop) [Decidable E] (P1 P2 P3 P4 X : ℚ) :
    (if E then (P1 + P2 + P3 + P4) * X else 0) =
      P1 * (if E then X else 0) + P2 * (if E then X else 0) +
      P3 * (if E then X else 0) + P4 * (if E then X else 0) := by
  split_ifs <;> ring

/-- Of the four parity-guarded terms produced by the stride-2 transposed
convolution, exactly one is live for each target pixel, and its value is
the floor-halved source pixel. -/
theorem parity_blend (τ ρ : ℤ) (wv : ℚ) (F : ℤ → ℤ → ℚ) :
    wv * (if τ % 2 = 0 ∧ ρ % 2 = 0 then F (τ / 2) (ρ / 2) else 0) +
      wv * (if (τ - 1) % 2 = 0 ∧ ρ % 2 = 0 then F ((τ - 1) / 2) (ρ / 2) else 0) +
      wv * (if τ % 2 = 0 ∧ (ρ - 1) % 2 = 0 then F (τ / 2) ((ρ - 1) / 2) else 0) +
      wv * (if (τ - 1) % 2 = 0 ∧ (ρ - 1) % 2 = 0 then F ((τ - 1) / 2) ((ρ - 1) / 2) else 0) =
    wv * F (τ / 2) (ρ / 2) := by
  have hτ : τ % 2 = 0 ∨ τ % 2 = 1 := by omega
  have hρ : ρ % 2 = 0 ∨ ρ % 2 = 1 := by omega
  rcases hτ with hτ | hτ <;> rcases hρ with hρ | hρ
  · rw [if_pos ⟨hτ, hρ⟩, if_neg (by omega), if_neg (by omega), if_neg (by omega)]
    ring
  · rw [if_neg (by omega), if_neg (by omega), if_pos ⟨hτ, by omega⟩, if_neg (by omega),
      show (ρ - 1) / 2 = ρ / 2 by omega]
    ring
  · rw [if_neg (by omega), if_pos ⟨by omega, hρ⟩, if_neg (by omega), if_neg (by omega),
      show (τ - 1) / 2 = τ / 2 by omega]
    ring
  · rw [if_neg (by omega), if_neg (by omega), if_neg (by omega), if_pos ⟨by omega, by omega⟩,
      show (τ - 1) / 2 = τ / 2 by omega, show (ρ - 1) / 2 = ρ / 2 by omega]
    ring

/-- The fused `upscale2d_conv2d` equals the unfused
`conv2d(upscale2d(x))` applied with the spatially flipped kernel:
`tf.nn.conv2d_transpose` is the adjoint of the strided cross-correlation,
which rotates the kernel 180° relative to the plain `conv2d`. -/
theorem upscale2d_conv2d_eq (x : IMap) (w : KMap) (Cin k : ℕ) (hk : k % 2 = 1) :
    upscale2d_conv2d x w Cin k = conv2dZ (upscale2dZ x 2) (flipK w k) Cin k := by
  funext cout u v
  have hR : conv2dZ (upscale2dZ x 2) (flipK w k) Cin k cout u v =
      ∑ c in Finset.range Cin, ∑ a in Finset.range k, ∑ b in Finset.range k,
        w a b c cout * x c ((u + (((k - 1) / 2 : ℕ) : ℤ) - (a : ℤ)) / 2)
          ((v + (((k - 1) / 2 : ℕ) : ℤ) - (b : ℤ)) / 2) := by
    simp only [conv2dZ, upscale2dZ, flipK]
    apply Finset.sum_congr rfl
    intro c _
    rw [← Finset.sum_range_reflect]
    apply Finset.sum_congr rfl
    intro a ha
    rw [← Finset.sum_range_reflect]
    apply Finset.sum_congr rfl
    intro b hb
    rw [Finset.mem_range] at ha hb
    rw [show k - 1 - (k - 1 - a) = a by omega, show k - 1 - (k - 1 - b) = b by omega]
    congr 1
    congr 1
    · congr 1
      omega
    · omega
  rw [hR]
  simp only [upscale2d_conv2d, conv2d_transpose_s2, spreadK]
  simp only [ite_spread_pull]
  simp only [Finset.sum_add_distrib, psum11, psum01, psum10, psum00]
  simp only [← Finset.sum_add_distrib]
  push_cast
  simp only [sub_add_eq_sub_sub]
  apply Finset.sum_congr rfl
  intro c _
  apply Finset.sum_congr rfl
  intro a _
  apply Finset.sum_congr rfl
  intro b _
  exact parity_blend (u + ((k - 1 : ℕ) : ℤ) / 2 - (a : ℤ)) (v + ((k - 1 : ℕ) : ℤ) / 2 - (b : ℤ))
    (w a b c cout) (x c)

/-- C7 counterexample: with the spatially asymmetric kernel `wC7` and the
point image `xC7`, the fused `upscale2d_conv2d` differs from
`conv2d(upscale2d(x))` with the *same* weights at the in-window output pixel
(1, 1): the fused graph yields 0 there while the unfused composition yields
1.  So the first half of the claim is false as an exact (or
within-tolerance) equality. -/
theorem upscale2d_conv2d_not_plain :
    upscale2d_conv2d xC7 wC7 1 3 0 1 1 ≠ conv2dZ (upscale2dZ xC7 2) wC7 1 3 0 1 1 := by
  have h1 : upscale2d_conv2d xC7 wC7 1 3 0 1 1 = 0 := by
    norm_num [upscale2d_conv2d, conv2d_transpose_s2, spreadK, padK, xC7, wC7,
      Finset.sum_range_succ, Finset.sum_range_zero]
  have h2 : conv2dZ (upscale2dZ xC7 2) wC7 1 3 0 1 1 = 1 := by
    norm_num [conv2dZ, upscale2dZ, xC7, wC7, Finset.sum_range_succ, Finset.sum_range_zero]
  rw [h1, h2]
  norm_num

/-- C7 (amended): `conv2d_downscale2d(x)` equals `downscale2d(conv2d(x))`
exactly, as the claim states; but `upscale2d_conv2d(x)` equals
`conv2d(upscale2d(x))` computed with the spatially 180°-rotated kernel
(`tf.nn.conv2d_transpose` is the adjoint of the strided correlation, which
flips the kernel), so with identical weights the fused and unfused upscale
paths agree only for spatially symmetric kernels. -/
theorem fused_scale_layers_eq :
    (∀ (x : IMap) (w : KMap) (Cin k : ℕ), k % 2 = 1 →
      upscale2d_conv2d x w Cin k = conv2dZ (upscale2dZ x 2) (flipK w k) Cin k) ∧
    (∀ (x : IMap) (w : KMap) (Cin k : ℕ),
      conv2d_downscale2d x w Cin k = downscale2dZ (conv2dZ x w Cin k) 2) :=
  ⟨fun x w Cin k hk => upscale2d_conv2d_eq x w Cin k hk,
   fun x w Cin k => conv2d_downscale2d_eq x w Cin k⟩

/-- Witness for C7's amended theorem at the concrete kernel size `k = 3`. -/
theorem fused_scale_layers_eq_witness :
    (3 % 2 = 1) ∧
    upscale2d_conv2d xC7 wC7 1 3 = conv2dZ (upscale2dZ xC7 2) (flipK wC7 3) 1 3 :=
  ⟨by decide, fused_scale_layers_eq.1 xC7 wC7 1 3 (by decide)⟩

end PuzzleGAN
